import Mathlib

/-!
Verification development for the foundry-agent-webapp repository.

Part 1 models `insertInlineCitations` from
`src/frontend/src/utils/citationUtils.ts`.  JavaScript strings are modelled
as `List Char`; the optional/nullable `startIndex` field is an `Option Int`
(`none` covers both `null` and `undefined`).  The stable `Array.prototype.sort`
is modelled by a stable insertion sort.

Part 2 models `BlobSasService` from the backend
(`src/unnamed/part_004`): `AppendSasTokenAsync`, `GenerateUserDelegationSasAsync`
and `Dispose`.  The Azure SDK boundary (user delegation key retrieval, SAS
parameter serialization, the clock) is supplied by an explicit environment.
-/

namespace CitationUtils

/-- A citation as produced by the backend: `{uri, title?, startIndex?, endIndex?}`. -/
structure Citation where
  uri : String
  title : Option String := none
  startIndex : Option Int := none
  endIndex : Option Int := none
deriving DecidableEq, Repr

/-- The filter condition of `insertInlineCitations`:
`c.startIndex !== null && c.startIndex !== undefined && c.startIndex >= 0 &&
c.startIndex <= content.length`. -/
def validStart (len : Nat) : Option Int → Bool
  | none => false
  | some s => decide (0 ≤ s) && decide (s ≤ (len : Int))

/-- `citations.map((citation, index) => ({...citation, originalIndex: index}))
    .filter(c => ...)` — the valid citations, each paired with its original
    zero-based position in the input list. -/
def validCitations (content : List Char) (citations : List Citation) :
    List (Nat × Citation) :=
  citations.enum.filter fun ic => validStart content.length ic.2.startIndex

/-- The sort key used by the comparator `(b.startIndex ?? 0) - (a.startIndex ?? 0)`. -/
def sKey (ic : Nat × Citation) : Int := ic.2.startIndex.getD 0

/-- Stable insertion (descending by `sKey`): an element moves past `y` only when
its key is strictly larger, so elements with equal keys keep their input order,
exactly as the (stable) JavaScript `Array.prototype.sort` does. -/
def insertDesc (x : Nat × Citation) : List (Nat × Citation) → List (Nat × Citation)
  | [] => [x]
  | y :: ys => if sKey x < sKey y then y :: insertDesc x ys else x :: y :: ys

/-- `validCitations.sort((a, b) => (b.startIndex ?? 0) - (a.startIndex ?? 0))`:
stable sort, descending by start index. -/
def sortDesc (l : List (Nat × Citation)) : List (Nat × Citation) :=
  l.foldr insertDesc []

/-- The marker: `` `<sup>\[[${citationNumber}]\](${citation.uri})</sup>` ``.
In a JavaScript template literal `\[` and `\]` are escape sequences denoting
plain `[` and `]` (the backslash is consumed), so the runtime string is
`<sup>[[n]](uri)</sup>`. -/
def citationMarker (n : Nat) (uri : String) : List Char :=
  ("<sup>[[" ++ toString n ++ "]](" ++ uri ++ ")</sup>").data

/-- `result.slice(0, insertPosition) + citationMarker + result.slice(insertPosition)`. -/
def insertAt (s : List Char) (pos : Nat) (m : List Char) : List Char :=
  s.take pos ++ m ++ s.drop pos

/-- Insert position and marker text of one sorted citation:
`insertPosition = citation.startIndex!` and
`citationNumber = citation.originalIndex! + 1`. -/
def markerOf (ic : Nat × Citation) : Nat × List Char :=
  ((ic.2.startIndex.getD 0).toNat, citationMarker (ic.1 + 1) ic.2.uri)

/-- `insertInlineCitations(content, citations)` from
`src/frontend/src/utils/citationUtils.ts`. -/
def insertInlineCitations (content : List Char) (citations : List Citation) :
    List Char :=
  if citations.isEmpty then content
  else
    let valid := validCitations content citations
    if valid.isEmpty then content
    else
      (sortDesc valid).foldl
        (fun res ic => insertAt res (markerOf ic).1 (markerOf ic).2) content

/-- Reference splicer: all insertion positions are interpreted against the
*original* content.  The argument list must be ascending; `off` is the number
of original characters already emitted, so a pair `(p, m)` inserts `m` after
original position `p`. -/
def spliceRefAux (content : List Char) (off : Nat) :
    List (Nat × List Char) → List Char
  | [] => content
  | (p, m) :: rest =>
      content.take (p - off) ++ m ++ spliceRefAux (content.drop (p - off)) p rest

/-- Splice a position-ascending list of markers into `content`, every position
measured against the original immutable `content`. -/
def spliceRef (content : List Char) (ms : List (Nat × List Char)) : List Char :=
  spliceRefAux content 0 ms

lemma le_length_insertAt (s : List Char) (p : Nat) (m : List Char) :
    s.length ≤ (insertAt s p m).length := by
  simp only [insertAt, List.length_append, List.length_take, List.length_drop]
  omega

lemma spliceRefAux_insertAt :
    ∀ (ms : List (Nat × List Char)) (content : List Char) (off p : Nat)
      (m : List Char),
      ms.Pairwise (fun a b => a.1 ≤ b.1) →
      (∀ q ∈ ms, off ≤ q.1 ∧ q.1 ≤ p) →
      off ≤ p → p - off ≤ content.length →
      spliceRefAux (insertAt content (p - off) m) off ms
        = spliceRefAux content off (ms ++ [(p, m)])
  | [], content, off, p, m, _, _, _, _ => by
      simp [spliceRefAux, insertAt]
  | (q, m1) :: rest, content, off, p, m, hpair, hb, hop, hlen => by
      obtain ⟨hq_rest, hpair_rest⟩ := List.pairwise_cons.mp hpair
      obtain ⟨hoq, hqp⟩ := hb (q, m1) (List.mem_cons_self _ _)
      have hlen_take : (content.take (p - off)).length = p - off := by
        simp [List.length_take]; omega
      have htake : (insertAt content (p - off) m).take (q - off)
          = content.take (q - off) := by
        rw [insertAt, List.append_assoc,
          List.take_append_of_le_length (by omega : q - off ≤ (content.take (p - off)).length),
          List.take_take]
        congr 1
        omega
      have hdrop : (insertAt content (p - off) m).drop (q - off)
          = insertAt (content.drop (q - off)) (p - q) m := by
        rw [insertAt, List.append_assoc,
          List.drop_append_of_le_length (by omega : q - off ≤ (content.take (p - off)).length),
          List.drop_take]
        have h1 : p - off - (q - off) = p - q := by omega
        have h2 : content.drop (p - off) = (content.drop (q - off)).drop (p - q) := by
          rw [List.drop_drop]
          congr 1
          omega
        rw [h1, h2, insertAt, List.append_assoc]
      have hIH := spliceRefAux_insertAt rest (content.drop (q - off)) q p m
        hpair_rest
        (fun r hr => ⟨hq_rest r hr, (hb r (List.mem_cons_of_mem _ hr)).2⟩)
        hqp
        (by simp [List.length_drop]; omega)
      calc spliceRefAux (insertAt content (p - off) m) off ((q, m1) :: rest)
          = (insertAt content (p - off) m).take (q - off) ++ m1
              ++ spliceRefAux ((insertAt content (p - off) m).drop (q - off)) q rest := rfl
        _ = content.take (q - off) ++ m1
              ++ spliceRefAux (insertAt (content.drop (q - off)) (p - q) m) q rest := by
            rw [htake, hdrop]
        _ = content.take (q - off) ++ m1
              ++ spliceRefAux (content.drop (q - off)) q (rest ++ [(p, m)]) := by
            rw [hIH]
        _ = spliceRefAux content off (((q, m1) :: rest) ++ [(p, m)]) := rfl

lemma foldl_insertAt_eq_spliceRef :
    ∀ (ms : List (Nat × List Char)) (content : List Char),
      ms.Pairwise (fun a b => b.1 ≤ a.1) →
      (∀ q ∈ ms, q.1 ≤ content.length) →
      ms.foldl (fun res pm => insertAt res pm.1 pm.2) content
        = spliceRef content ms.reverse
  | [], content, _, _ => rfl
  | (p, m) :: rest, content, hpair, hb => by
      obtain ⟨hp_rest, hpair_rest⟩ := List.pairwise_cons.mp hpair
      have hp_len : p ≤ content.length := hb (p, m) (List.mem_cons_self _ _)
      have hIH := foldl_insertAt_eq_spliceRef rest (insertAt content p m)
        hpair_rest
        (fun q hq => le_trans (hb q (List.mem_cons_of_mem _ hq))
          (le_length_insertAt content p m))
      have hstep := spliceRefAux_insertAt rest.reverse content 0 p m
        (List.pairwise_reverse.mpr hpair_rest)
        (fun q hq => ⟨Nat.zero_le _, hp_rest q (List.mem_reverse.mp hq)⟩)
        (Nat.zero_le _)
        (by simpa using hp_len)
      calc ((p, m) :: rest).foldl (fun res pm => insertAt res pm.1 pm.2) content
          = rest.foldl (fun res pm => insertAt res pm.1 pm.2) (insertAt content p m) := rfl
        _ = spliceRef (insertAt content p m) rest.reverse := hIH
        _ = spliceRefAux (insertAt content (p - 0) m) 0 rest.reverse := by
            simp [spliceRef]
        _ = spliceRefAux content 0 (rest.reverse ++ [(p, m)]) := hstep
        _ = spliceRef content (((p, m) :: rest).reverse) := by
            rw [spliceRef, List.reverse_cons]

lemma mem_insertDesc {x y : Nat × Citation} :
    ∀ {l : List (Nat × Citation)}, y ∈ insertDesc x l ↔ y = x ∨ y ∈ l
  | [] => by simp [insertDesc]
  | z :: zs => by
      simp only [insertDesc]
      split
      · simp only [List.mem_cons, mem_insertDesc (l := zs)]
        tauto
      · simp only [List.mem_cons]

lemma mem_sortDesc {y : Nat × Citation} :
    ∀ {l : List (Nat × Citation)}, y ∈ sortDesc l ↔ y ∈ l
  | [] => by simp [sortDesc]
  | z :: zs => by
      have : sortDesc (z :: zs) = insertDesc z (sortDesc zs) := rfl
      rw [this, mem_insertDesc, mem_sortDesc (l := zs)]
      simp

lemma pairwise_insertDesc {x : Nat × Citation} :
    ∀ {l : List (Nat × Citation)},
      l.Pairwise (fun a b => sKey b ≤ sKey a) →
      (insertDesc x l).Pairwise (fun a b => sKey b ≤ sKey a)
  | [], _ => by simp [insertDesc]
  | y :: ys, h => by
      obtain ⟨hy, hys⟩ := List.pairwise_cons.mp h
      simp only [insertDesc]
      split
      · rename_i hlt
        refine List.pairwise_cons.mpr ⟨?_, pairwise_insertDesc hys⟩
        intro z hz
        rcases mem_insertDesc.mp hz with rfl | hz'
        · exact le_of_lt hlt
        · exact hy z hz'
      · rename_i hnlt
        refine List.pairwise_cons.mpr ⟨?_, h⟩
        intro z hz
        rcases List.mem_cons.mp hz with rfl | hz'
        · exact not_lt.mp hnlt
        · exact le_trans (hy z hz') (not_lt.mp hnlt)

lemma pairwise_sortDesc :
    ∀ (l : List (Nat × Citation)),
      (sortDesc l).Pairwise (fun a b => sKey b ≤ sKey a)
  | [] => by simp [sortDesc]
  | z :: zs => by
      have : sortDesc (z :: zs) = insertDesc z (sortDesc zs) := rfl
      rw [this]
      exact pairwise_insertDesc (pairwise_sortDesc zs)

lemma validStart_toNat_le {len : Nat} {si : Option Int}
    (h : validStart len si = true) : (si.getD 0).toNat ≤ len := by
  cases si with
  | none => simp [validStart] at h
  | some s =>
      simp only [validStart, Bool.and_eq_true, decide_eq_true_eq] at h
      simpa [Option.getD, Int.toNat_le] using h.2

/-- The fold executed by `insertInlineCitations` equals the reference splicer
applied to the (reversed, hence ascending) sorted marker list, with every
insertion position interpreted against the original content. -/
lemma insertInlineCitations_eq_spliceRef (content : List Char)
    (citations : List Citation) :
    insertInlineCitations content citations
      = spliceRef content
          (((sortDesc (validCitations content citations)).map markerOf).reverse) := by
  by_cases hc : citations.isEmpty
  · have : citations = [] := by
      cases citations with
      | nil => rfl
      | cons a l => simp at hc
    subst this
    simp [insertInlineCitations, validCitations, sortDesc, spliceRef, spliceRefAux]
  · by_cases hv : (validCitations content citations).isEmpty
    · have hvnil : validCitations content citations = [] := by
        cases h : validCitations content citations with
        | nil => rfl
        | cons a l => rw [h] at hv; simp at hv
      simp [insertInlineCitations, hc, hv, hvnil, sortDesc, spliceRef, spliceRefAux]
    · have hfold :
        (sortDesc (validCitations content citations)).foldl
            (fun res ic => insertAt res (markerOf ic).1 (markerOf ic).2) content
          = ((sortDesc (validCitations content citations)).map markerOf).foldl
              (fun res pm => insertAt res pm.1 pm.2) content := by
        rw [List.foldl_map]
      have hpair :
          (((sortDesc (validCitations content citations)).map markerOf)).Pairwise
            (fun a b => b.1 ≤ a.1) := by
        refine List.pairwise_map.mpr ?_
        refine (pairwise_sortDesc (validCitations content citations)).imp ?_
        intro a b hab
        exact Int.toNat_le_toNat hab
      have hbound : ∀ q ∈ ((sortDesc (validCitations content citations)).map markerOf),
          q.1 ≤ content.length := by
        intro q hq
        obtain ⟨ic, hic, rfl⟩ := List.mem_map.mp hq
        have hicv : ic ∈ validCitations content citations := mem_sortDesc.mp hic
        have hvalid : validStart content.length ic.2.startIndex = true :=
          (List.mem_filter.mp hicv).2
        exact validStart_toNat_le hvalid
      rw [insertInlineCitations]
      simp only [hc, if_false, hv, if_false]
      rw [hfold, foldl_insertAt_eq_spliceRef _ content hpair hbound]
      simp

lemma infix_spliceRefAux {m : List Char} :
    ∀ (ms : List (Nat × List Char)) (content : List Char) (off p : Nat),
      (p, m) ∈ ms → m <:+: spliceRefAux content off ms
  | [], _, _, _, h => by simp at h
  | (q, m1) :: rest, content, off, p, h => by
      rcases List.mem_cons.mp h with heq | hmem
      · have h1 : p = q := congrArg Prod.fst heq
        have h2 : m = m1 := congrArg Prod.snd heq
        subst h1
        subst h2
        exact ⟨content.take (p - off),
          spliceRefAux (content.drop (p - off)) p rest, rfl⟩
      · obtain ⟨a, b, hab⟩ :=
          infix_spliceRefAux rest (content.drop (q - off)) q p hmem
        exact ⟨content.take (q - off) ++ m1 ++ a, b, by
          simp only [spliceRefAux, ← hab]
          simp [List.append_assoc]⟩

lemma get_mem_enumFrom :
    ∀ (l : List Citation) (n i : Nat) (c : Citation),
      l[i]? = some c → (n + i, c) ∈ l.enumFrom n
  | [], _, i, _, h => by simp at h
  | a :: l, n, 0, c, h => by
      simp only [List.getElem?_cons_zero, Option.some.injEq] at h
      subst h
      simp [List.enumFrom_cons]
  | a :: l, n, i + 1, c, h => by
      simp only [List.getElem?_cons_succ] at h
      have := get_mem_enumFrom l (n + 1) i c h
      rw [List.enumFrom_cons]
      refine List.mem_cons_of_mem _ ?_
      have harith : n + (i + 1) = n + 1 + i := by omega
      rw [harith]
      exact this

lemma snd_mem_of_mem_enum {ic : Nat × Citation} {l : List Citation}
    (h : ic ∈ l.enum) : ic.2 ∈ l := by
  obtain ⟨i, c⟩ := ic
  rw [List.enum_eq_enumFrom] at h
  obtain ⟨h1, h2, h3⟩ := List.mem_enumFrom h
  show c ∈ l
  rw [h3]
  exact List.getElem_mem _

/-- The content string of the spec's worked example. -/
def exContent : List Char :=
  "Azure provides cloud services. Microsoft offers many solutions.".data

/-- The citation list of the spec's worked example. -/
def exCitations : List Citation :=
  [{ uri := "https://a", startIndex := some 0 },
   { uri := "https://b", startIndex := some 29 }]

/-- C1: when every citation has a defined, in-range start offset,
`insertInlineCitations` (which splices descending by `startIndex`) produces
exactly the string obtained by computing every insertion position against the
original immutable content: the reference splicer `spliceRef` reads each
position relative to the original string and keeps all original characters in
order. -/
theorem c1_descending_insert_matches_original_offsets
    (content : List Char) (citations : List Citation)
    (h : ∀ c ∈ citations, validStart content.length c.startIndex = true) :
    insertInlineCitations content citations
      = spliceRef content (((sortDesc citations.enum).map markerOf).reverse) := by
  have hv : validCitations content citations = citations.enum :=
    List.filter_eq_self.mpr fun ic hic => h ic.2 (snd_mem_of_mem_enum hic)
  rw [insertInlineCitations_eq_spliceRef, hv]

theorem c1_descending_insert_matches_original_offsets_witness :
    insertInlineCitations "hello world".data
        [{ uri := "https://x", startIndex := some 5 }]
      = spliceRef "hello world".data
          (((sortDesc ([{ uri := "https://x", startIndex := some 5 }]
              : List Citation).enum).map markerOf).reverse) :=
  c1_descending_insert_matches_original_offsets _ _ (by decide)

/-- C5: each surviving citation is numbered `(its position in the original
input list) + 1` — so the numbering never depends on which other citations
were filtered out — and on the spec's worked example the two markers are
numbered 1 and 2 and inserted exactly at offsets 0 and 29 of the original
text, all other characters untouched. -/
theorem c5_numbering_is_original_position_plus_one :
    (∀ (content : List Char) (citations : List Citation) (i : Nat) (c : Citation),
        citations[i]? = some c →
        validStart content.length c.startIndex = true →
        citationMarker (i + 1) c.uri <:+: insertInlineCitations content citations)
    ∧ insertInlineCitations exContent exCitations
        = citationMarker 1 "https://a" ++ "Azure provides cloud services".data
          ++ citationMarker 2 "https://b" ++ ". Microsoft offers many solutions.".data := by
  constructor
  · intro content citations i c hget hvalid
    rw [insertInlineCitations_eq_spliceRef]
    unfold spliceRef
    have hmem_enum : (i, c) ∈ citations.enum := by
      rw [List.enum_eq_enumFrom]
      simpa using get_mem_enumFrom citations 0 i c hget
    have hmem_sort : (i, c) ∈ sortDesc (validCitations content citations) :=
      mem_sortDesc.mpr (List.mem_filter.mpr ⟨hmem_enum, hvalid⟩)
    have hmem_map : ((c.startIndex.getD 0).toNat, citationMarker (i + 1) c.uri)
        ∈ (sortDesc (validCitations content citations)).map markerOf :=
      List.mem_map.mpr ⟨(i, c), hmem_sort, rfl⟩
    exact infix_spliceRefAux _ content 0 _ (List.mem_reverse.mpr hmem_map)
  · decide

theorem c5_numbering_is_original_position_plus_one_witness :
    citationMarker 1 "https://a" <:+: insertInlineCitations exContent exCitations :=
  c5_numbering_is_original_position_plus_one.1 exContent exCitations 0
    { uri := "https://a", startIndex := some 0 } rfl (by decide)

/-- C6: citations with an undefined, negative, or out-of-range `startIndex`
are discarded silently: a list of only invalid citations leaves the content
untouched, and replacing one invalid citation by any other invalid citation
(at the same list position) leaves the output — in particular every marker of
the remaining citations — unchanged. -/
theorem c6_invalid_startIndex_citations_dropped_silently :
    (∀ (content : List Char) (citations : List Citation),
        (∀ c ∈ citations, validStart content.length c.startIndex = false) →
        insertInlineCitations content citations = content)
    ∧ (∀ (content : List Char) (l1 l2 : List Citation) (c c2 : Citation),
        validStart content.length c.startIndex = false →
        validStart content.length c2.startIndex = false →
        insertInlineCitations content (l1 ++ c :: l2)
          = insertInlineCitations content (l1 ++ c2 :: l2)) := by
  constructor
  · intro content citations h
    have hvnil : validCitations content citations = [] := by
      rw [validCitations, List.filter_eq_nil_iff]
      intro ic hic
      simp [h ic.2 (snd_mem_of_mem_enum hic)]
    by_cases hc : citations.isEmpty
    · simp [insertInlineCitations, hc]
    · simp [insertInlineCitations, hc, hvnil]
  · intro content l1 l2 c c2 h h2
    have hvc : validCitations content (l1 ++ c :: l2)
        = validCitations content (l1 ++ c2 :: l2) := by
      unfold validCitations
      rw [List.enum_eq_enumFrom, List.enum_eq_enumFrom,
        List.enumFrom_append, List.enumFrom_append,
        List.filter_append, List.filter_append,
        List.enumFrom_cons, List.enumFrom_cons,
        List.filter_cons, List.filter_cons]
      simp [h, h2]
    have hem : (l1 ++ c :: l2).isEmpty = (l1 ++ c2 :: l2).isEmpty := by
      cases l1 <;> rfl
    unfold insertInlineCitations
    rw [hem, hvc]

theorem c6_invalid_startIndex_citations_dropped_silently_witness :
    insertInlineCitations "ab".data [{ uri := "u", startIndex := some 99 }]
      = "ab".data :=
  c6_invalid_startIndex_citations_dropped_silently.1 _ _ (by decide)

/-- C10: for two citations sharing one defined, in-range start offset, the
stable descending sort keeps their input order, so the first-listed citation's
marker is inserted first and the second insertion at the same offset pushes it
right: both markers sit adjacent at the offset with the later-listed citation's
marker first. -/
theorem c10_equal_startIndex_later_marker_first
    (content : List Char) (p : Nat) (ca cb : Citation)
    (hsa : ca.startIndex = some (p : Int)) (hsb : cb.startIndex = some (p : Int))
    (hp : p ≤ content.length) :
    insertInlineCitations content [ca, cb]
      = content.take p ++ citationMarker 2 cb.uri ++ citationMarker 1 ca.uri
          ++ content.drop p := by
  have hvalid : validStart content.length (some (p : Int)) = true := by
    simp [validStart, hp]
  have hvc : validCitations content [ca, cb] = [(0, ca), (1, cb)] := by
    rw [validCitations]
    show List.filter _ [(0, ca), (1, cb)] = _
    rw [List.filter_cons, List.filter_cons]
    simp [hsa, hsb, hvalid]
  have hsort : sortDesc [(0, ca), (1, cb)] = [(0, ca), (1, cb)] := by
    show insertDesc (0, ca) (insertDesc (1, cb) []) = _
    simp [insertDesc, sKey, hsa, hsb]
  have hlen : (content.take p).length = p := by
    rw [List.length_take]
    omega
  have hfold : insertInlineCitations content [ca, cb]
      = insertAt (insertAt content p (citationMarker 1 ca.uri)) p
          (citationMarker 2 cb.uri) := by
    rw [insertInlineCitations]
    simp only [List.isEmpty_cons, hvc, hsort, Bool.false_eq_true, if_false,
      List.foldl_cons, List.foldl_nil, markerOf, hsa, hsb, Option.getD_some,
      Int.toNat_natCast]
  have h1 : (insertAt content p (citationMarker 1 ca.uri)).take p
      = content.take p := by
    rw [insertAt, List.append_assoc, List.take_append_of_le_length (by rw [hlen])]
    simp [List.take_take]
  have h2 : (insertAt content p (citationMarker 1 ca.uri)).drop p
      = citationMarker 1 ca.uri ++ content.drop p := by
    rw [insertAt, List.append_assoc, List.drop_append_of_le_length (by rw [hlen])]
    rw [List.drop_take]
    simp
  rw [hfold, insertAt, h1, h2]
  simp [List.append_assoc]

theorem c10_equal_startIndex_later_marker_first_witness :
    insertInlineCitations "hello".data
        [{ uri := "https://a", startIndex := some 2 },
         { uri := "https://b", startIndex := some 2 }]
      = "he".data ++ citationMarker 2 "https://b" ++ citationMarker 1 "https://a"
          ++ "llo".data :=
  c10_equal_startIndex_later_marker_first "hello".data 2
    { uri := "https://a", startIndex := some 2 }
    { uri := "https://b", startIndex := some 2 } rfl rfl (by decide)

end CitationUtils

namespace BlobSas

/-- Find the first occurrence of `c`: returns the characters before it and,
when present, the characters after it (models `string.Split`-style behaviour
and the host/path/query cuts of `System.Uri`). -/
def splitOnceAt (c : Char) : List Char → List Char × Option (List Char)
  | [] => ([], none)
  | x :: xs =>
      if x = c then ([], some xs)
      else
        let r := splitOnceAt c xs
        (x :: r.1, r.2)

/-- Cut an absolute URI at the first `"://"`: the scheme before it and the
remainder after it. -/
def splitScheme : List Char → Option (List Char × List Char)
  | [] => none
  | x :: xs =>
      if x = ':' ∧ xs.take 2 = ['/', '/'] then some ([], xs.drop 2)
      else
        match splitScheme xs with
        | none => none
        | some r => some (x :: r.1, r.2)

/-- The components `Uri.Host` / `Uri.AbsolutePath` / `Uri.Query` that
`AppendSasTokenAsync` reads off the parsed URI. -/
structure ParsedUri where
  scheme : List Char
  host : List Char
  path : List Char
  query : List Char
deriving DecidableEq, Repr

/-- `Uri.TryCreate(blobUri, UriKind.Absolute, out uri)`: scheme before the
first `"://"`, query from the first `'?'` (kept with its leading `'?'`, as
`Uri.Query` reports it), host up to the first `'/'` (a port after `':'` is not
part of `Uri.Host`), path from that `'/'` (`Uri.AbsolutePath` is at least
`"/"`).  `Uri.Host` is normalised to lower case, as .NET does.  Fails on an
empty scheme or host (e.g. a string with no scheme at all). -/
def tryCreateAbsolute (s : List Char) : Option ParsedUri :=
  match splitScheme s with
  | none => none
  | some (scheme, rest) =>
      if scheme.isEmpty then none
      else
        let q := splitOnceAt '?' rest
        let query : List Char := match q.2 with
          | none => []
          | some qs => '?' :: qs
        let hp := splitOnceAt '/' q.1
        let host := (splitOnceAt ':' hp.1).1
        if host.isEmpty then none
        else
          let path : List Char := match hp.2 with
            | none => ['/']
            | some ps => '/' :: ps
          some ⟨scheme, host.map Char.toLower, path, query⟩

/-- `$"{_storageAccountName}.blob.core.windows.net"`. -/
def expectedHost (account : List Char) : List Char :=
  account ++ ".blob.core.windows.net".data

/-- `String.Equals(..., StringComparison.OrdinalIgnoreCase)`. -/
def lowerEq (a b : List Char) : Bool :=
  a.map Char.toLower == b.map Char.toLower

/-- `uri.Host.Equals($"{_storageAccountName}.blob.core.windows.net",
StringComparison.OrdinalIgnoreCase)`. -/
def hostMatches (account host : List Char) : Bool :=
  lowerEq host (expectedHost account)

/-- Boolean prefix test on character lists. -/
def leadsWith : List Char → List Char → Bool
  | [], _ => true
  | _ :: _, [] => false
  | p :: ps, c :: cs => p == c && leadsWith ps cs

/-- Substring occurrence test on character lists. -/
def containsSub : List Char → List Char → Bool
  | [], pat => pat.isEmpty
  | s@(_ :: tail), pat => leadsWith pat s || containsSub tail pat

/-- `uri.Query.Contains("sig=", StringComparison.OrdinalIgnoreCase)`:
a case-insensitive substring search over the whole query string. -/
def containsIC (s pat : List Char) : Bool :=
  containsSub (s.map Char.toLower) (pat.map Char.toLower)

/-- `uri.AbsolutePath.TrimStart('/')`. -/
def trimStartSlash (l : List Char) : List Char :=
  l.dropWhile fun c => c == '/'

/-- `.Split('/', 2)`: at most two pieces, the second keeping any further
slashes. -/
def split2Slash (l : List Char) : List (List Char) :=
  let r := splitOnceAt '/' l
  match r.2 with
  | none => [r.1]
  | some b => [r.1, b]

/-- The configuration state `BlobSasService` derives in its constructor. -/
structure BlobSasConfig where
  storageAccountName : List Char
  durationMinutes : Int
  isEnabled : Bool

/-- The configuration values the constructor reads, plus whether creating the
`BlobServiceClient` succeeds (the constructor disables the service when it
throws). -/
structure AppSettings where
  storageAccountName : Option (List Char)
  sasTokenDurationMinutes : Option Int
  clientInitSucceeds : Bool

/-- The constructor: disabled when `STORAGE_ACCOUNT_NAME` is null or empty or
client creation fails; `SAS_TOKEN_DURATION_MINUTES` defaults to 60. -/
def BlobSasConfig.ofSettings (s : AppSettings) : BlobSasConfig :=
  match s.storageAccountName with
  | none => ⟨[], 60, false⟩
  | some name =>
      if name.isEmpty then ⟨[], 60, false⟩
      else ⟨name, s.sasTokenDurationMinutes.getD 60, s.clientInitSucceeds⟩

/-- The exception classes distinguished by the `catch` clauses of
`AppendSasTokenAsync`: `RequestFailedException` with status 403,
any other `RequestFailedException`, and any other `Exception`. -/
inductive ExKind where
  | requestFailed403
  | requestFailedOther
  | otherException
deriving DecidableEq, Repr

/-- What `GetUserDelegationKeyAsync` does on this request: return a key or
throw. -/
inductive KeyOutcome where
  | success (key : List Char)
  | throwEx (e : ExKind)

/-- `BlobSasBuilder` as configured by `GenerateUserDelegationSasAsync`. -/
structure BlobSasBuilder where
  blobContainerName : List Char
  blobName : List Char
  resource : List Char
  startsOn : Int
  expiresOn : Int
  permissions : List Char
deriving DecidableEq, Repr

/-- The external world of one `AppendSasTokenAsync` call: the clock
(`DateTimeOffset.UtcNow`, in minutes), the storage service's answer to the
user delegation key request, and the opaque cryptographic signature the SDK
computes from a builder and a key. -/
structure SasEnv where
  now : Int
  keyOutcome : KeyOutcome
  sigOf : BlobSasBuilder → List Char → List Char

/-- The builder constructed by `GenerateUserDelegationSasAsync`:
`Resource = "b"`, `[startsOn, startsOn + duration]`, read-only permissions
(`SetPermissions(BlobSasPermissions.Read)` serialises as `"r"`). -/
def sasBuilderFor (cfg : BlobSasConfig) (env : SasEnv)
    (container blob : List Char) : BlobSasBuilder :=
  { blobContainerName := container
    blobName := blob
    resource := "b".data
    startsOn := env.now
    expiresOn := env.now + cfg.durationMinutes
    permissions := "r".data }

/-- Time rendering inside the SAS query string (opaque; the claims only
constrain the encoded values). -/
def fmtTime (t : Int) : List Char := (toString t).data

/-- Modelled from the spec: `BlobSasBuilder.ToSasQueryParameters` is Azure SDK
code, not part of this repository.  Per the spec the signed grant's query
parameters encode a version, the resource type, start/expiry, the permissions
and a signature (`sv`, `sr`, `st`, `se`, `sp`, `sig`). -/
def toSasQueryParameters (b : BlobSasBuilder) (sig : List Char) : List Char :=
  "sv=2024-05-04&sr=".data ++ b.resource
    ++ "&st=".data ++ fmtTime b.startsOn
    ++ "&se=".data ++ fmtTime b.expiresOn
    ++ "&sp=".data ++ b.permissions
    ++ "&sig=".data ++ sig

/-- `blobClient.Uri` for `GetBlobContainerClient(container).GetBlobClient(blob)`
on the configured endpoint, as rebuilt by `BlobUriBuilder`. -/
def blobUriBase (account container blob : List Char) : List Char :=
  "https://".data ++ account ++ ".blob.core.windows.net/".data
    ++ container ++ '/' :: blob

/-- `GenerateUserDelegationSasAsync`: fetch the user delegation key (letting
any exception propagate — the 403 handler only logs and rethrows), build the
read-only blob-scoped builder, and return the blob URI with the SAS query
appended. -/
def GenerateUserDelegationSasAsync (cfg : BlobSasConfig) (env : SasEnv)
    (container blob : List Char) : Except ExKind (List Char) :=
  match env.keyOutcome with
  | .throwEx e => .error e
  | .success key =>
      let b := sasBuilderFor cfg env container blob
      .ok (blobUriBase cfg.storageAccountName container blob
            ++ '?' :: toSasQueryParameters b (env.sigOf b key))

/-- The one exception `AppendSasTokenAsync` can raise past its catch-all:
the `ObjectDisposedException` thrown before the `try` block. -/
inductive DisposedError where
  | objectDisposed
deriving DecidableEq, Repr

/-- `AppendSasTokenAsync` from `BlobSasService`: throw if disposed; pass the
URI through unchanged when the service is disabled, the URI does not parse as
absolute, the host is not the configured account's blob endpoint, the query
already contains `"sig="`, the path has fewer than two segments, or SAS
generation throws (every exception class is caught and degrades to the
original URI). -/
def AppendSasTokenAsync (cfg : BlobSasConfig) (disposed : Bool) (env : SasEnv)
    (blobUri : List Char) : Except DisposedError (List Char) :=
  if disposed then .error .objectDisposed
  else if !cfg.isEnabled then .ok blobUri
  else
    match tryCreateAbsolute blobUri with
    | none => .ok blobUri
    | some uri =>
        if !hostMatches cfg.storageAccountName uri.host then .ok blobUri
        else if containsIC uri.query "sig=".data then .ok blobUri
        else
          match split2Slash (trimStartSlash uri.path) with
          | [containerName, blobName] =>
              match GenerateUserDelegationSasAsync cfg env containerName blobName with
              | .ok sasUri => .ok sasUri
              | .error _ => .ok blobUri
          | _ => .ok blobUri

/-- `Dispose` sets the disposed flag. -/
def Dispose (_disposed : Bool) : Bool := true

/-- Does the query string (with or without its leading `'?'`) contain a
parameter *named* `sig` (case-insensitively)?  This is what a real
already-signed test would parse for; the code instead substring-searches. -/
def splitAllAux (c : Char) : List Char → List Char → List (List Char)
  | [], acc => [acc.reverse]
  | x :: xs, acc =>
      if x = c then acc.reverse :: splitAllAux c xs []
      else splitAllAux c xs (x :: acc)

/-- Name of one `name=value` query parameter. -/
def paramName (p : List Char) : List Char := (splitOnceAt '=' p).1

/-- True when some `&`-separated component of the query has the exact name
`sig` (case-insensitively). -/
def hasSigParamByName (query : List Char) : Bool :=
  let q := match query with
    | '?' :: rest => rest
    | l => l
  (splitAllAux '&' q []).any fun p => lowerEq (paramName p) ("sig".data)

end BlobSas

namespace BlobSas

lemma splitScheme_https (l : List Char) :
    splitScheme ("https://".data ++ l) = some ("https".data, l) := rfl

lemma splitOnceAt_append_mem :
    ∀ (A : List Char) (c : Char) (Q : List Char),
      ∃ B C, splitOnceAt c (A ++ c :: Q) = (B, some C) ∧ Q <:+ C
  | [], c, Q => ⟨[], Q, by simp [splitOnceAt], List.suffix_refl Q⟩
  | x :: A, c, Q => by
      by_cases hx : x = c
      · subst hx
        refine ⟨[], A ++ x :: Q, by simp [splitOnceAt], ?_⟩
        exact (List.suffix_cons x Q).trans (List.suffix_append A (x :: Q))
      · obtain ⟨B, C, hBC, hsuff⟩ := splitOnceAt_append_mem A c Q
        refine ⟨x :: B, C, ?_, hsuff⟩
        simp [splitOnceAt, hx, hBC]

lemma sig_infix_toSasQueryParameters (b : BlobSasBuilder) (sig : List Char) :
    "sig=".data <:+: toSasQueryParameters b sig := by
  refine ⟨"sv=2024-05-04&sr=".data ++ b.resource ++ "&st=".data ++ fmtTime b.startsOn
    ++ "&se=".data ++ fmtTime b.expiresOn ++ "&sp=".data ++ b.permissions
    ++ ['&'], sig, ?_⟩
  have hs : ("&sig=".data : List Char) = '&' :: "sig=".data := rfl
  simp [toSasQueryParameters, hs, List.append_assoc]

lemma leadsWith_of_isPre :
    ∀ (pat s : List Char), pat <+: s → leadsWith pat s = true
  | [], _, _ => rfl
  | p :: ps, s, h => by
      obtain ⟨t, ht⟩ := h
      subst ht
      show leadsWith (p :: ps) (p :: (ps ++ t)) = true
      simp [leadsWith, leadsWith_of_isPre ps (ps ++ t) ⟨t, rfl⟩]

lemma containsSub_complete :
    ∀ (s pat : List Char), pat <:+: s → containsSub s pat = true
  | [], pat, h => by
      rw [List.infix_nil] at h
      subst h
      rfl
  | x :: tail, pat, h => by
      obtain ⟨a, b, hab⟩ := h
      cases a with
      | nil =>
          simp only [List.nil_append] at hab
          have hpre : pat <+: x :: tail := ⟨b, hab⟩
          simp [containsSub, leadsWith_of_isPre _ _ hpre]
      | cons y ys =>
          have htail : (ys ++ pat) ++ b = tail := by
            have : y :: ((ys ++ pat) ++ b) = x :: tail := by
              simpa [List.append_assoc] using hab
            injection this with _ h2
          have : pat <:+: tail := ⟨ys, b, htail⟩
          simp [containsSub, containsSub_complete tail pat this]

lemma infix_map_toLower {pat s : List Char} (h : pat <:+: s) :
    pat.map Char.toLower <:+: s.map Char.toLower := by
  obtain ⟨a, b, hab⟩ := h
  exact ⟨a.map Char.toLower, b.map Char.toLower, by rw [← hab]; simp⟩

lemma containsIC_complete {s pat : List Char} (h : pat <:+: s) :
    containsIC s pat = true :=
  containsSub_complete _ _ (infix_map_toLower h)

lemma tryCreate_query_signed (acct container blob sasQ : List Char) (u : ParsedUri)
    (h : tryCreateAbsolute (blobUriBase acct container blob ++ '?' :: sasQ) = some u) :
    ∃ C, u.query = '?' :: C ∧ sasQ <:+ C := by
  obtain ⟨B, C, hsplit, hsuff⟩ := splitOnceAt_append_mem
    (acct ++ ".blob.core.windows.net/".data ++ container ++ '/' :: blob) '?' sasQ
  have heq : blobUriBase acct container blob ++ '?' :: sasQ
      = "https://".data ++ ((acct ++ ".blob.core.windows.net/".data ++ container
          ++ '/' :: blob) ++ '?' :: sasQ) := by
    simp [blobUriBase, List.append_assoc]
  rw [heq] at h
  have hne : (("https".data : List Char)).isEmpty = false := rfl
  unfold tryCreateAbsolute at h
  rw [splitScheme_https] at h
  simp only [hne, Bool.false_eq_true, if_false, hsplit] at h
  by_cases hhost : ((splitOnceAt ':' (splitOnceAt '/' B).1).1).isEmpty
  · rw [if_pos hhost] at h
    exact absurd h (by simp)
  · rw [if_neg hhost] at h
    refine ⟨C, ?_, hsuff⟩
    have := (Option.some.inj h).symm
    rw [this]

lemma appendSas_signed_fixed (cfg : BlobSasConfig) (env : SasEnv)
    (acct container blob sasQ : List Char)
    (hsig : "sig=".data <:+: sasQ) :
    AppendSasTokenAsync cfg false env (blobUriBase acct container blob ++ '?' :: sasQ)
      = .ok (blobUriBase acct container blob ++ '?' :: sasQ) := by
  cases hparse : tryCreateAbsolute (blobUriBase acct container blob ++ '?' :: sasQ) with
  | none => simp [AppendSasTokenAsync, hparse]
  | some u =>
      obtain ⟨C, hq, hsuff⟩ := tryCreate_query_signed acct container blob sasQ u hparse
      have hcontains : containsIC u.query "sig=".data = true := by
        rw [hq]
        exact containsIC_complete (List.infix_cons (hsig.trans hsuff.isInfix))
      simp [AppendSasTokenAsync, hparse, hcontains]

/-- Every run of `AppendSasTokenAsync` on a live, enabled-or-not service either
passes the input through unchanged or returns the freshly signed URI. -/
lemma appendSas_cases (cfg : BlobSasConfig) (env : SasEnv) (u : List Char) :
    AppendSasTokenAsync cfg false env u = .ok u
    ∨ ∃ container blob key,
        env.keyOutcome = KeyOutcome.success key ∧
        AppendSasTokenAsync cfg false env u
          = .ok (blobUriBase cfg.storageAccountName container blob
              ++ '?' :: toSasQueryParameters (sasBuilderFor cfg env container blob)
                    (env.sigOf (sasBuilderFor cfg env container blob) key)) := by
  cases hen : cfg.isEnabled with
  | false => left; simp [AppendSasTokenAsync, hen]
  | true =>
      cases hparse : tryCreateAbsolute u with
      | none => left; simp [AppendSasTokenAsync, hen, hparse]
      | some pu =>
          cases hh : hostMatches cfg.storageAccountName pu.host with
          | false => left; simp [AppendSasTokenAsync, hen, hparse, hh]
          | true =>
              cases hq : containsIC pu.query "sig=".data with
              | true => left; simp [AppendSasTokenAsync, hen, hparse, hh, hq]
              | false =>
                  cases hsp : split2Slash (trimStartSlash pu.path) with
                  | nil => left; simp [AppendSasTokenAsync, hen, hparse, hh, hq, hsp]
                  | cons c1 rest =>
                      cases rest with
                      | nil => left; simp [AppendSasTokenAsync, hen, hparse, hh, hq, hsp]
                      | cons b1 rest2 =>
                          cases rest2 with
                          | cons d ds =>
                              left
                              simp [AppendSasTokenAsync, hen, hparse, hh, hq, hsp]
                          | nil =>
                              cases hko : env.keyOutcome with
                              | throwEx e =>
                                  left
                                  simp [AppendSasTokenAsync,
                                    GenerateUserDelegationSasAsync, hen, hparse,
                                    hh, hq, hsp, hko]
                              | success key =>
                                  right
                                  refine ⟨c1, b1, key, rfl, ?_⟩
                                  simp [AppendSasTokenAsync,
                                    GenerateUserDelegationSasAsync, hen, hparse,
                                    hh, hq, hsp, hko]

end BlobSas

namespace BlobSas

lemma appendSas_parse_none (cfg : BlobSasConfig) (env : SasEnv) (input : List Char)
    (h : tryCreateAbsolute input = none) :
    AppendSasTokenAsync cfg false env input = .ok input := by
  simp [AppendSasTokenAsync, h]

lemma appendSas_short_path (cfg : BlobSasConfig) (env : SasEnv) (input : List Char)
    (u : ParsedUri) (hparse : tryCreateAbsolute input = some u)
    (hlen : (split2Slash (trimStartSlash u.path)).length < 2) :
    AppendSasTokenAsync cfg false env input = .ok input := by
  cases hh : hostMatches cfg.storageAccountName u.host with
  | false => simp [AppendSasTokenAsync, hparse, hh]
  | true =>
      cases hq : containsIC u.query "sig=".data with
      | true => simp [AppendSasTokenAsync, hparse, hh, hq]
      | false =>
          cases hsp : split2Slash (trimStartSlash u.path) with
          | nil => simp [AppendSasTokenAsync, hparse, hh, hq, hsp]
          | cons c1 rest =>
              cases rest with
              | nil => simp [AppendSasTokenAsync, hparse, hh, hq, hsp]
              | cons b1 rest2 =>
                  rw [hsp] at hlen
                  simp at hlen
                  omega

lemma appendSas_key_failure (cfg : BlobSasConfig) (env : SasEnv) (input : List Char)
    (e : ExKind) (hko : env.keyOutcome = .throwEx e) :
    AppendSasTokenAsync cfg false env input = .ok input := by
  rcases appendSas_cases cfg env input with hcase | ⟨c1, b1, key, hk, _⟩
  · exact hcase
  · rw [hko] at hk
    exact absurd hk (by simp)

/-- C2: on a live (non-disposed) service every call returns without raising,
and each failure class — URI parse failure, a path with fewer than two
segments, or the delegation-key request throwing (authorization denial or any
other request/transient error) — returns the original input unchanged. -/
theorem c2_fail_open_every_error_returns_input (cfg : BlobSasConfig)
    (env : SasEnv) (input : List Char) (_hen : cfg.isEnabled = true) :
    (∃ out, AppendSasTokenAsync cfg false env input = .ok out)
    ∧ (tryCreateAbsolute input = none →
        AppendSasTokenAsync cfg false env input = .ok input)
    ∧ (∀ u, tryCreateAbsolute input = some u →
        (split2Slash (trimStartSlash u.path)).length < 2 →
        AppendSasTokenAsync cfg false env input = .ok input)
    ∧ (∀ e, env.keyOutcome = KeyOutcome.throwEx e →
        AppendSasTokenAsync cfg false env input = .ok input) := by
  refine ⟨?_, ?_, ?_, ?_⟩
  · rcases appendSas_cases cfg env input with hcase | ⟨c1, b1, key, _, hcase⟩
    · exact ⟨input, hcase⟩
    · exact ⟨_, hcase⟩
  · exact appendSas_parse_none cfg env input
  · exact fun u hp hl => appendSas_short_path cfg env input u hp hl
  · exact fun e he => appendSas_key_failure cfg env input e he

/-- C3: the rewrite is idempotent — whatever `AppendSasTokenAsync` returns
(either the unchanged input or a freshly signed URI, whose query contains
`sig=`, making the already-signed test short-circuit), feeding the result back
in returns it unchanged. -/
theorem c3_rewrite_idempotent_once_signed (cfg : BlobSasConfig) (env : SasEnv)
    (u s : List Char)
    (h : AppendSasTokenAsync cfg false env u = .ok s) :
    AppendSasTokenAsync cfg false env s = .ok s := by
  rcases appendSas_cases cfg env u with hcase | ⟨container, blob, key, hko, hcase⟩
  · rw [h] at hcase
    have hsu : s = u := Except.ok.inj hcase
    subst hsu
    exact h
  · rw [h] at hcase
    have hs : s = blobUriBase cfg.storageAccountName container blob
        ++ '?' :: toSasQueryParameters (sasBuilderFor cfg env container blob)
              (env.sigOf (sasBuilderFor cfg env container blob) key) :=
      Except.ok.inj hcase
    subst hs
    exact appendSas_signed_fixed cfg env _ container blob _
      (sig_infix_toSasQueryParameters _ _)

/-- Example configuration: account `myacct`, 60-minute tokens, enabled. -/
def cfgEx : BlobSasConfig := ⟨"myacct".data, 60, true⟩

/-- Example environment: clock at 0, key request succeeds, opaque signature
`SIG`. -/
def envEx : SasEnv := ⟨0, .success "KEY".data, fun _ _ => "SIG".data⟩

/-- An unsigned URI of the example account. -/
def unsignedEx : List Char :=
  "https://myacct.blob.core.windows.net/docs/report.pdf".data

/-- What `AppendSasTokenAsync cfgEx false envEx unsignedEx` produces. -/
def signedEx : List Char :=
  "https://myacct.blob.core.windows.net/docs/report.pdf?sv=2024-05-04&sr=b&st=0&se=60&sp=r&sig=SIG".data

theorem c3_rewrite_idempotent_once_signed_witness :
    AppendSasTokenAsync cfgEx false envEx signedEx = .ok signedEx :=
  c3_rewrite_idempotent_once_signed cfgEx envEx unsignedEx signedEx (by rfl)

end BlobSas

namespace BlobSas

/-- A URI whose host has the expected host as a proper prefix. -/
def lookAlikeSuffixUri : List Char :=
  "https://myacct.blob.core.windows.net.evil.example/docs/report.pdf".data

/-- A URI whose host has the expected host as a proper suffix. -/
def lookAlikeContainsUri : List Char :=
  "https://evilmyacct.blob.core.windows.net/docs/report.pdf".data

/-- The expected host written with different letter case. -/
def caseVariantUri : List Char :=
  "https://MyAcct.BLOB.core.windows.NET/docs/report.pdf".data

/-- C4: any parsed URI whose host is not case-insensitively equal to
`<storageAccountName>.blob.core.windows.net` passes through unchanged; in
particular both look-alike hosts (expected host extended on either side) are
never rewritten, while a host differing only in letter case is rewritten. -/
theorem c4_host_match_exact_case_insensitive :
    (∀ (cfg : BlobSasConfig) (env : SasEnv) (input : List Char) (u : ParsedUri),
        tryCreateAbsolute input = some u →
        hostMatches cfg.storageAccountName u.host = false →
        AppendSasTokenAsync cfg false env input = .ok input)
    ∧ AppendSasTokenAsync cfgEx false envEx lookAlikeSuffixUri = .ok lookAlikeSuffixUri
    ∧ AppendSasTokenAsync cfgEx false envEx lookAlikeContainsUri = .ok lookAlikeContainsUri
    ∧ AppendSasTokenAsync cfgEx false envEx caseVariantUri = .ok signedEx
    ∧ signedEx ≠ caseVariantUri := by
  refine ⟨?_, rfl, rfl, rfl, by decide⟩
  intro cfg env input u hparse hh
  simp [AppendSasTokenAsync, hparse, hh]

theorem c4_host_match_exact_case_insensitive_witness :
    AppendSasTokenAsync cfgEx false envEx
        "https://other.blob.core.windows.net/docs/report.pdf".data
      = .ok "https://other.blob.core.windows.net/docs/report.pdf".data :=
  c4_host_match_exact_case_insensitive.1 cfgEx envEx _
    ⟨"https".data, "other.blob.core.windows.net".data,
      "/docs/report.pdf".data, []⟩ rfl rfl

/-- C7: when `AppendSasTokenAsync` does rewrite, the output is the blob URI of
the parsed container/blob on the configured account plus the SAS query built
from a builder that is read-only (`"r"`), blob-scoped (`"b"`) and valid on
`[now, now + durationMinutes]`; and a missing `SAS_TOKEN_DURATION_MINUTES`
setting defaults the duration to 60 minutes. -/
theorem c7_signed_grant_read_only_blob_scoped_time_bounded :
    (∀ (cfg : BlobSasConfig) (env : SasEnv) (input : List Char) (u : ParsedUri)
        (container blob key : List Char),
        cfg.isEnabled = true →
        tryCreateAbsolute input = some u →
        hostMatches cfg.storageAccountName u.host = true →
        containsIC u.query "sig=".data = false →
        split2Slash (trimStartSlash u.path) = [container, blob] →
        env.keyOutcome = KeyOutcome.success key →
        AppendSasTokenAsync cfg false env input
          = .ok (blobUriBase cfg.storageAccountName container blob
              ++ '?' :: toSasQueryParameters (sasBuilderFor cfg env container blob)
                    (env.sigOf (sasBuilderFor cfg env container blob) key))
          ∧ (sasBuilderFor cfg env container blob).permissions = "r".data
          ∧ (sasBuilderFor cfg env container blob).resource = "b".data
          ∧ (sasBuilderFor cfg env container blob).startsOn = env.now
          ∧ (sasBuilderFor cfg env container blob).expiresOn
              = env.now + cfg.durationMinutes)
    ∧ (∀ s : AppSettings, s.sasTokenDurationMinutes = none →
        (BlobSasConfig.ofSettings s).durationMinutes = 60) := by
  constructor
  · intro cfg env input u container blob key hen hparse hh hq hsp hko
    refine ⟨?_, rfl, rfl, rfl, rfl⟩
    simp [AppendSasTokenAsync, GenerateUserDelegationSasAsync, hen, hparse, hh,
      hq, hsp, hko]
  · intro s h
    cases hsn : s.storageAccountName with
    | none => simp [BlobSasConfig.ofSettings, hsn]
    | some name =>
        by_cases hie : name.isEmpty
        · simp [BlobSasConfig.ofSettings, hsn, hie]
        · simp [BlobSasConfig.ofSettings, hsn, hie, h]

theorem c7_signed_grant_read_only_blob_scoped_time_bounded_witness :
    AppendSasTokenAsync cfgEx false envEx unsignedEx
      = .ok (blobUriBase cfgEx.storageAccountName "docs".data "report.pdf".data
          ++ '?' :: toSasQueryParameters
                (sasBuilderFor cfgEx envEx "docs".data "report.pdf".data)
                (envEx.sigOf (sasBuilderFor cfgEx envEx "docs".data "report.pdf".data)
                  "KEY".data)) :=
  (c7_signed_grant_read_only_blob_scoped_time_bounded.1 cfgEx envEx unsignedEx
    ⟨"https".data, "myacct.blob.core.windows.net".data, "/docs/report.pdf".data, []⟩
    "docs".data "report.pdf".data "KEY".data rfl rfl rfl rfl rfl rfl).1

/-- C8: after `Dispose`, every call to `AppendSasTokenAsync` raises
`ObjectDisposedException` — the disposed check runs before the fail-open
`try`/`catch`, so no input is ever passed through in the disposed state. -/
theorem c8_disposed_service_always_throws (cfg : BlobSasConfig) (env : SasEnv)
    (input : List Char) (d : Bool) :
    AppendSasTokenAsync cfg (Dispose d) env input
        = .error DisposedError.objectDisposed
    ∧ ∀ out, AppendSasTokenAsync cfg (Dispose d) env input ≠ .ok out :=
  ⟨rfl, fun _ h => by simp [AppendSasTokenAsync, Dispose] at h⟩

/-- An unsigned URI of the example account whose query merely mentions
`sig=` inside another parameter's name. -/
def resigUri : List Char :=
  "https://myacct.blob.core.windows.net/docs/report.pdf?resig=1".data

/-- C9: the already-signed test is a case-insensitive substring search, so the
unsigned URI `...?resig=1` on the configured account is treated as signed and
returned unchanged — even though its query has no parameter named `sig` and the
same URI without that query does get rewritten. -/
theorem c9_substring_sig_test_overmatches :
    AppendSasTokenAsync cfgEx false envEx resigUri = .ok resigUri
    ∧ tryCreateAbsolute resigUri
        = some ⟨"https".data, "myacct.blob.core.windows.net".data,
            "/docs/report.pdf".data, "?resig=1".data⟩
    ∧ containsIC "?resig=1".data "sig=".data = true
    ∧ hasSigParamByName "?resig=1".data = false
    ∧ hostMatches cfgEx.storageAccountName "myacct.blob.core.windows.net".data = true
    ∧ AppendSasTokenAsync cfgEx false envEx unsignedEx = .ok signedEx
    ∧ signedEx ≠ unsignedEx :=
  ⟨rfl, rfl, by decide, by decide, by decide, rfl, by decide⟩

end BlobSas

namespace BlobSas

theorem c2_fail_open_every_error_returns_input_witness :
    AppendSasTokenAsync cfgEx false envEx "not a uri".data = .ok "not a uri".data :=
  (c2_fail_open_every_error_returns_input cfgEx envEx "not a uri".data rfl).2.1 rfl

end BlobSas
